import Mathlib

/-!
Shallow embedding of the markdown blockquote formatter (src/lib.rs of
markdown-blockquote-formatter).

Text is modelled as a list of Unicode scalar values: Lean Char coincides
with Rust char. Byte positions, which the source manipulates through
str::get, are recovered through UTF-8 encoded lengths.
-/

/-- UTF-8 encoded length in bytes of a character, as Rust encodes it. -/
def utf8Len (c : Char) : Nat :=
  if c.toNat < 0x80 then 1
  else if c.toNat < 0x800 then 2
  else if c.toNat < 0x10000 then 3
  else 4

/-- Rust char::is_whitespace: the Unicode White_Space property. -/
def rustIsWhitespace (c : Char) : Bool :=
  c.toNat == 0x09 || c.toNat == 0x0A || c.toNat == 0x0B || c.toNat == 0x0C ||
  c.toNat == 0x0D || c.toNat == 0x20 || c.toNat == 0x85 || c.toNat == 0xA0 ||
  c.toNat == 0x1680 || (0x2000 ≤ c.toNat && c.toNat ≤ 0x200A) ||
  c.toNat == 0x2028 || c.toNat == 0x2029 || c.toNat == 0x202F ||
  c.toNat == 0x205F || c.toNat == 0x3000

/-- Rust str::trim_end, dropping trailing whitespace characters. -/
def trimEnd (s : List Char) : List Char :=
  (s.reverse.dropWhile rustIsWhitespace).reverse

/-- Rust str::trim_start, dropping leading whitespace characters. -/
def trimStart (s : List Char) : List Char :=
  s.dropWhile rustIsWhitespace

/-- Rust str::trim, dropping whitespace at both ends. -/
def rustTrim (s : List Char) : List Char :=
  trimEnd (trimStart s)

/-- Rust str::get(i..): the suffix starting at BYTE offset i when i lies on
a character boundary of the UTF-8 encoding (including i equal to the byte
length), none otherwise. -/
def rustGet : List Char → Nat → Option (List Char)
  | s, 0 => some s
  | [], _ + 1 => none
  | c :: rest, i + 1 =>
    if i + 1 < utf8Len c then none
    else rustGet rest (i + 1 - utf8Len c)

/-- The maximum value of usize (64-bit platform). -/
def USIZE_MAX : Nat := 2 ^ 64 - 1

/-- usize::saturating_add. -/
def satAdd (a b : Nat) : Nat := min (a + b) USIZE_MAX

/-- The string starting a blockquote line, BLOCKQUOTE_LINE in the source. -/
def BLOCKQUOTE_LINE : List Char := ['>', ' ']

/-- The ellipsis character, ELLIPSIS in the source. -/
def ELLIPSIS : Char := '…'

/-- The newline character, NEWLINE in the source. -/
def NEWLINE : Char := '\n'

/-- The Blockquote formatter struct of the source. -/
structure Blockquote where
  hard_limit : Option Nat
  soft_limit : Nat
  text : List Char
  with_ellipsis : Bool
deriving Repr, DecidableEq

/-- Blockquote::new. -/
def Blockquote.new (text : List Char) : Blockquote :=
  { hard_limit := none, soft_limit := USIZE_MAX, text := text, with_ellipsis := true }

/-- Builder Blockquote::soft_limit. -/
def soft_limit (b : Blockquote) (n : Nat) : Blockquote :=
  { b with soft_limit := n }

/-- Builder Blockquote::hard_limit. -/
def hard_limit (b : Blockquote) (n : Nat) : Blockquote :=
  { b with hard_limit := some n }

/-- Builder Blockquote::with_ellipsis. -/
def with_ellipsis (b : Blockquote) (x : Bool) : Blockquote :=
  { b with with_ellipsis := x }

/-- Blockquote::is_empty. -/
def Blockquote.is_empty (b : Blockquote) : Bool :=
  b.text.isEmpty || (rustTrim b.text).isEmpty

/-- Blockquote::reached_limit. -/
def Blockquote.reached_limit (b : Blockquote) (index : Nat) (soft : Bool) : Bool :=
  let limit :=
    if soft then b.soft_limit
    else satAdd b.soft_limit (b.hard_limit.getD 0)
  decide (index ≥ limit)

/-- Blockquote::remaining_empty. -/
def Blockquote.remaining_empty (b : Blockquote) (index : Nat) : Bool :=
  match rustGet b.text index with
  | some remaining => (trimEnd remaining).isEmpty
  | none => false

/-- The two-state line stage of Display::fmt. -/
inductive Stage where
  | Ongoing
  | StartLine
deriving Repr, DecidableEq

/-- The marker written at the head of an iteration: BLOCKQUOTE_LINE when the
stage is StartLine, nothing otherwise. -/
def lineMarker (stage : Stage) : List Char :=
  if stage == Stage.StartLine then BLOCKQUOTE_LINE else []

/-- The stage after one loop iteration that emits character c: the source
first moves StartLine to Ongoing when c is not a newline, and after writing
c moves back to StartLine when c is a newline. -/
def stepStage (stage : Stage) (c : Char) : Stage :=
  let stage1 := if stage == Stage.StartLine && c != NEWLINE then Stage.Ongoing else stage
  if c == NEWLINE then Stage.StartLine else stage1

/-- The character walk of Display::fmt: processes the remaining characters
starting at the given index and stage, returning the emitted output and the
final index. Mirrors the for loop of the source: the whitespace-tail break,
the marker write, the limit break, the character write. -/
def fmtLoop (b : Blockquote) : List Char → Nat → Stage → List Char × Nat
  | [], index, _ => ([], index)
  | c :: rest, index, stage =>
    if b.remaining_empty index then ([], index)
    else if b.reached_limit index (rustIsWhitespace c) then (lineMarker stage, index)
    else
      let next := fmtLoop b rest (index + 1) (stepStage stage c)
      (lineMarker stage ++ c :: next.1, next.2)

/-- Display::fmt as a pure function from the formatter to the output text:
the empty short circuit, the walk, the trailing ellipsis. -/
def render (b : Blockquote) : List Char :=
  if b.is_empty then []
  else
    let done := fmtLoop b b.text 0 Stage.StartLine
    if b.with_ellipsis && !b.remaining_empty done.2 then done.1 ++ [ELLIPSIS]
    else done.1

/-- The limit a character is checked against, in the words of the spec: the
soft limit for a whitespace character, the saturating sum of the soft limit
and the hard limit (0 when unset) for a non-whitespace character. -/
def applicableLimit (b : Blockquote) (c : Char) : Nat :=
  if rustIsWhitespace c then b.soft_limit
  else satAdd b.soft_limit (b.hard_limit.getD 0)

/-- Split an output text into its lines at newline characters; a newline
terminates a line, so a trailing newline yields a final empty segment. -/
def linesOf : List Char → List (List Char)
  | [] => [[]]
  | c :: rest =>
    if c == NEWLINE then [] :: linesOf rest
    else
      match linesOf rest with
      | [] => [[c]]
      | l :: ls => (c :: l) :: ls

/-- A model of the output sink: the sink state records how many write calls
succeeded and the buffer written so far; an optional failAt makes the write
numbered failAt (0-based) report failure, writing nothing. -/
def wr (failAt : Option Nat) (st : Nat × List Char) (piece : List Char) :
    Option (Nat × List Char) :=
  match failAt with
  | some n => if st.1 == n then none else some (st.1 + 1, st.2 ++ piece)
  | none => some (st.1 + 1, st.2 ++ piece)

/-- The walk of Display::fmt threaded through the fallible sink: each write
of the source (the marker write_str, the per-character write_char) goes
through wr, and a failure aborts at once, as the question-mark operator of
the source does. Returns the success flag, the final index and the sink
state. -/
def fmtSinkLoop (b : Blockquote) (failAt : Option Nat) :
    List Char → Nat → Stage → Nat × List Char → Bool × Nat × (Nat × List Char)
  | [], index, _, st => (true, index, st)
  | c :: rest, index, stage, st =>
    if b.remaining_empty index then (true, index, st)
    else
      match (if stage == Stage.StartLine then wr failAt st BLOCKQUOTE_LINE else some st) with
      | none => (false, index, st)
      | some st1 =>
        if b.reached_limit index (rustIsWhitespace c) then (true, index, st1)
        else
          match wr failAt st1 [c] with
          | none => (false, index, st1)
          | some st2 => fmtSinkLoop b failAt rest (index + 1) (stepStage stage c) st2

/-- Display::fmt against the fallible sink: returns the success flag and the
final sink state (write count and buffer). -/
def fmtSink (b : Blockquote) (failAt : Option Nat) : Bool × (Nat × List Char) :=
  if b.is_empty then (true, 0, [])
  else
    match fmtSinkLoop b failAt b.text 0 Stage.StartLine (0, []) with
    | (false, _, st) => (false, st)
    | (true, index, st) =>
      if b.with_ellipsis && !b.remaining_empty index then
        match wr failAt st [ELLIPSIS] with
        | none => (false, st)
        | some st2 => (true, st2)
      else (true, st)

/-! Helper lemmas. -/

/-- trim_end of a text is empty exactly when the text is all whitespace. -/
theorem trimEnd_eq_nil_iff (s : List Char) :
    trimEnd s = [] ↔ ∀ c ∈ s, rustIsWhitespace c = true := by
  simp [trimEnd, List.dropWhile_eq_nil_iff]

/-- trim of a text is empty exactly when the text is all whitespace. -/
theorem rustTrim_eq_nil_iff (s : List Char) :
    rustTrim s = [] ↔ ∀ c ∈ s, rustIsWhitespace c = true := by
  simp only [rustTrim, trimStart, trimEnd_eq_nil_iff]
  constructor
  · intro h c hc
    have hc2 : c ∈ List.takeWhile rustIsWhitespace s ++ List.dropWhile rustIsWhitespace s := by
      rw [List.takeWhile_append_dropWhile]
      exact hc
    rcases List.mem_append.mp hc2 with h1 | h2
    · exact List.mem_takeWhile_imp h1
    · exact h c h2
  · intro h c hc
    exact h c ((List.dropWhile_sublist rustIsWhitespace).mem hc)

/-- reached_limit, called as the source does on the whitespace flag of the
current character, compares the index with the applicable limit. -/
theorem reached_limit_eq_applicable (b : Blockquote) (i : Nat) (c : Char) :
    b.reached_limit i (rustIsWhitespace c) = decide (applicableLimit b c ≤ i) := by
  cases h : rustIsWhitespace c <;>
    simp [Blockquote.reached_limit, applicableLimit, h]

/-! Claim theorems. -/

/-- Claim C10: each builder call changes only its own field: soft_limit
sets only soft_limit, hard_limit sets only hard_limit (to some value),
with_ellipsis sets only with_ellipsis; the text field is never modified by
any of the three. -/
theorem builders_frame (b : Blockquote) (n m : Nat) (x : Bool) :
    (soft_limit b n).soft_limit = n ∧ (soft_limit b n).text = b.text ∧
    (soft_limit b n).hard_limit = b.hard_limit ∧
    (soft_limit b n).with_ellipsis = b.with_ellipsis ∧
    (hard_limit b m).hard_limit = some m ∧ (hard_limit b m).text = b.text ∧
    (hard_limit b m).soft_limit = b.soft_limit ∧
    (hard_limit b m).with_ellipsis = b.with_ellipsis ∧
    (with_ellipsis b x).with_ellipsis = x ∧ (with_ellipsis b x).text = b.text ∧
    (with_ellipsis b x).soft_limit = b.soft_limit ∧
    (with_ellipsis b x).hard_limit = b.hard_limit :=
  ⟨rfl, rfl, rfl, rfl, rfl, rfl, rfl, rfl, rfl, rfl, rfl, rfl⟩

/-- Claim C8: render is a deterministic pure function of the text and the
three configuration fields: two formatter values agreeing on all four
fields render identically. -/
theorem render_deterministic (b1 b2 : Blockquote)
    (ht : b1.text = b2.text) (hs : b1.soft_limit = b2.soft_limit)
    (hh : b1.hard_limit = b2.hard_limit) (he : b1.with_ellipsis = b2.with_ellipsis) :
    render b1 = render b2 := by
  cases b1
  cases b2
  simp only [Blockquote.text, Blockquote.soft_limit, Blockquote.hard_limit,
    Blockquote.with_ellipsis] at ht hs hh he
  subst ht
  subst hs
  subst hh
  subst he
  rfl

/-- Witness for claim C8 at a concrete formatter. -/
theorem render_deterministic_witness :
    render (Blockquote.new ['h', 'i']) = render (Blockquote.new ['h', 'i']) :=
  render_deterministic (Blockquote.new ['h', 'i']) (Blockquote.new ['h', 'i'])
    rfl rfl rfl rfl

/-- Claim C7: on the text of test_soft_limit with soft limit 26 and hard
limit 10, render walks past the soft limit into the hard budget, finishes
the word cool, cuts at the following whitespace and appends an ellipsis. -/
theorem render_scenario_soft_hard :
    render (hard_limit (soft_limit (Blockquote.new
        ['t', 'h', 'i', 's', ' ', 'i', 's', ' ', 'j', 'u', 's', 't', ':', '\n',
         'a', ' ', 'r', 'e', 'a', 'l', 'l', 'y', ' ', 'c', 'o', 'o', 'l', ' ',
         't', 'e', 's', 't', '!']) 26) 10) =
      ['>', ' ', 't', 'h', 'i', 's', ' ', 'i', 's', ' ', 'j', 'u', 's', 't', ':', '\n',
       '>', ' ', 'a', ' ', 'r', 'e', 'a', 'l', 'l', 'y', ' ', 'c', 'o', 'o', 'l', '…'] := by
  decide

/-- Claim C1 fails on the code: with the two-character text of two
two-byte characters, the walk consumes the whole text (the remainder from
the final character index 2 is empty, nothing was discarded), yet render
appends an ellipsis, because remaining_empty treats the character index 2
as a byte offset inside the four-byte text, where str::get returns none. -/
theorem ellipsis_without_truncation :
    render (Blockquote.new ['é', 'é']) = ['>', ' ', 'é', 'é', '…'] ∧
    List.drop 2 ['é', 'é'] = ([] : List Char) := by
  decide

/-- Claim C2 fails on the code: in the text of a two-byte character and two
newlines, the remainder from character index 1 onward is all whitespace,
yet the walk does not stop there: the newline at index 1 is emitted,
because the check slices the text at byte offset 1, which is inside the
two-byte character, so str::get returns none and the check is skipped. -/
theorem whitespace_tail_emitted :
    render (Blockquote.new ['é', NEWLINE, NEWLINE]) = ['>', ' ', 'é', NEWLINE] ∧
    (trimEnd (List.drop 1 ['é', NEWLINE, NEWLINE])).isEmpty = true := by
  decide

/-- Claim C5 fails on the code: on the text of two two-byte characters and
a newline, render produces a final line holding only the ellipsis, without
the marker: the walk exhausts the text ending at character index 3, and
remaining_empty reads byte offset 3 of the five-byte text, not a character
boundary, so the remainder is treated as non-empty and an ellipsis is
appended right after the line-ending newline. -/
theorem marker_missing_on_ellipsis_line :
    render (Blockquote.new ['é', 'é', NEWLINE]) =
      ['>', ' ', 'é', 'é', NEWLINE, ELLIPSIS] ∧
    linesOf (render (Blockquote.new ['é', 'é', NEWLINE])) =
      [['>', ' ', 'é', 'é'], [ELLIPSIS]] ∧
    List.take 2 [ELLIPSIS] ≠ ['>', ' '] := by
  decide

/-- Claim C3: when the walk reaches the limit check for a character (the
whitespace-tail check did not stop it), the limit compared against is the
soft limit for a whitespace character and the saturating sum of the soft
limit and the hard limit (0 when unset) for a non-whitespace character,
and the walk stops, emitting at most the pending line marker and neither
this character nor any later one, exactly when the index reaches that
limit. -/
theorem limit_check_semantics (b : Blockquote) (c : Char) (rest : List Char)
    (i : Nat) (stage : Stage) (h : b.remaining_empty i = false) :
    (applicableLimit b c ≤ i →
      fmtLoop b (c :: rest) i stage = (lineMarker stage, i)) ∧
    (i < applicableLimit b c →
      fmtLoop b (c :: rest) i stage =
        (lineMarker stage ++ c :: (fmtLoop b rest (i + 1) (stepStage stage c)).1,
         (fmtLoop b rest (i + 1) (stepStage stage c)).2)) := by
  constructor <;> intro hle
  · have hr : b.reached_limit i (rustIsWhitespace c) = true := by
      rw [reached_limit_eq_applicable]
      exact decide_eq_true hle
    simp [fmtLoop, h, hr]
  · have hr : b.reached_limit i (rustIsWhitespace c) = false := by
      rw [reached_limit_eq_applicable]
      exact decide_eq_false (Nat.not_le.mpr hle)
    simp [fmtLoop, h, hr]

/-- Witness for claim C3 at soft limit 0 on a two-character text. -/
theorem limit_check_semantics_witness :
    (soft_limit (Blockquote.new ['a', 'b']) 0).remaining_empty 0 = false ∧
    applicableLimit (soft_limit (Blockquote.new ['a', 'b']) 0) 'a' ≤ 0 ∧
    fmtLoop (soft_limit (Blockquote.new ['a', 'b']) 0) ['a', 'b'] 0 Stage.StartLine =
      (lineMarker Stage.StartLine, 0) :=
  ⟨by decide, by decide,
    (limit_check_semantics (soft_limit (Blockquote.new ['a', 'b']) 0) 'a' ['b'] 0
      Stage.StartLine (by decide)).1 (by decide)⟩

/-- Claim C6: limits are measured in characters, not bytes: whenever a
character is emitted, the index checked against the limits advances by
exactly one, whatever the UTF-8 byte length of the character, so each
multi-byte character counts as one unit toward the cutoff; concretely, a
text of five two-byte characters under soft limit 3 is cut after three
characters, not after three bytes. -/
theorem char_counted_once (b : Blockquote) (c : Char) (rest : List Char)
    (i : Nat) (stage : Stage)
    (hrem : b.remaining_empty i = false)
    (hlim : b.reached_limit i (rustIsWhitespace c) = false) :
    (fmtLoop b (c :: rest) i stage =
      (lineMarker stage ++ c :: (fmtLoop b rest (i + 1) (stepStage stage c)).1,
       (fmtLoop b rest (i + 1) (stepStage stage c)).2)) ∧
    1 ≤ utf8Len c ∧
    render (soft_limit (Blockquote.new ['α', 'α', 'α', 'α', 'α']) 3) =
      ['>', ' ', 'α', 'α', 'α', '…'] := by
  refine ⟨?_, ?_, by decide⟩
  · simp [fmtLoop, hrem, hlim]
  · simp only [utf8Len]
    split <;> try split <;> try split
    all_goals omega

/-- Witness for claim C6 at a two-byte character. -/
theorem char_counted_once_witness :
    (Blockquote.new ['α', 'β']).remaining_empty 0 = false ∧
    fmtLoop (Blockquote.new ['α', 'β']) ['α', 'β'] 0 Stage.StartLine =
      (lineMarker Stage.StartLine ++ 'α' ::
        (fmtLoop (Blockquote.new ['α', 'β']) ['β'] 1 (stepStage Stage.StartLine 'α')).1,
       (fmtLoop (Blockquote.new ['α', 'β']) ['β'] 1 (stepStage Stage.StartLine 'α')).2) :=
  ⟨by decide,
    (char_counted_once (Blockquote.new ['α', 'β']) 'α' ['β'] 0 Stage.StartLine
      (by decide) (by decide)).1⟩

/-- str::get at offset 0 returns the whole text. -/
theorem rustGet_zero (s : List Char) : rustGet s 0 = some s := by
  cases s <;> rfl

/-- The walk emits something when the text is not all whitespace: starting
at index 0 in StartLine stage on a nonempty text whose remainder check does
not fire, the output is nonempty (it begins with the marker). -/
theorem fmtLoop_ne_nil (b : Blockquote) (c : Char) (rest : List Char)
    (hrem : b.remaining_empty 0 = false) :
    (fmtLoop b (c :: rest) 0 Stage.StartLine).1 ≠ [] := by
  by_cases hl : b.reached_limit 0 (rustIsWhitespace c) <;>
    simp [fmtLoop, hrem, hl, lineMarker, BLOCKQUOTE_LINE]

/-- Claim C4: is_empty is true exactly when the text is empty or all
whitespace, and render produces empty output exactly when is_empty is
true. -/
theorem is_empty_agrees (b : Blockquote) :
    (b.is_empty = true ↔ (b.text = [] ∨ ∀ c ∈ b.text, rustIsWhitespace c = true)) ∧
    (render b = [] ↔ b.is_empty = true) := by
  have hiff : b.is_empty = true ↔
      (b.text = [] ∨ ∀ c ∈ b.text, rustIsWhitespace c = true) := by
    simp only [Blockquote.is_empty, Bool.or_eq_true, List.isEmpty_iff,
      rustTrim_eq_nil_iff]
  refine ⟨hiff, ?_, fun he => by simp [render, he]⟩
  intro hr
  by_contra hne
  have hemp : b.is_empty = false := by
    cases hb : b.is_empty
    · rfl
    · exact absurd hb hne
  have hnot : ¬(b.text = [] ∨ ∀ c ∈ b.text, rustIsWhitespace c = true) := by
    intro hcontra
    rw [hiff.mpr hcontra] at hemp
    simp at hemp
  push_neg at hnot
  obtain ⟨htne, x, hx, hxw⟩ := hnot
  obtain ⟨c, rest, hts⟩ := List.exists_cons_of_ne_nil htne
  have htrim : trimEnd b.text ≠ [] :=
    fun h0 => hxw (((trimEnd_eq_nil_iff b.text).mp h0) x hx)
  have hrem : b.remaining_empty 0 = false := by
    simp only [Blockquote.remaining_empty, rustGet_zero]
    simpa [List.isEmpty_iff] using htrim
  have hfst : (fmtLoop b b.text 0 Stage.StartLine).1 ≠ [] := by
    rw [hts]
    exact fmtLoop_ne_nil b c rest hrem
  rw [render] at hr
  simp only [hemp, Bool.false_eq_true, if_false] at hr
  by_cases he2 : (b.with_ellipsis &&
      !b.remaining_empty (fmtLoop b b.text 0 Stage.StartLine).2) = true
  · simp only [he2, if_true] at hr
    exact List.append_ne_nil_of_right_ne_nil _ (by simp) hr
  · simp only [he2, if_false] at hr
    exact hfst hr

/-- A sink write succeeds, appending the piece and counting one write,
unless the failing write number is exactly the current write count. -/
theorem wr_eq (failAt : Option Nat) (st : Nat × List Char) (piece : List Char) :
    wr failAt st piece =
      if failAt = some st.1 then none else some (st.1 + 1, st.2 ++ piece) := by
  cases failAt with
  | none => simp [wr]
  | some n =>
    simp only [wr, Option.some.injEq]
    by_cases h : st.1 = n
    · simp [h]
    · have h2 : ¬n = st.1 := fun hn => h hn.symm
      simp [h, h2]

/-- The sink-threaded walk against the pure walk: either every write
succeeds, the final index matches and the buffer extends by exactly the
pure output, or the sink failed at write number n, the walk aborted right
there with n successful writes, and the buffer extends by a prefix of the
pure output. -/
theorem fmtSinkLoop_spec (b : Blockquote) (failAt : Option Nat) :
    ∀ (cs : List Char) (i : Nat) (stage : Stage) (k : Nat) (buf : List Char),
    (∃ m, fmtSinkLoop b failAt cs i stage (k, buf) =
        (true, (fmtLoop b cs i stage).2, (k + m, buf ++ (fmtLoop b cs i stage).1)))
    ∨ (∃ n j pre suffix, failAt = some n ∧
        fmtSinkLoop b failAt cs i stage (k, buf) = (false, j, (n, buf ++ pre)) ∧
        pre ++ suffix = (fmtLoop b cs i stage).1) := by
  intro cs
  induction cs with
  | nil =>
    intro i stage k buf
    left
    exact ⟨0, by simp [fmtSinkLoop, fmtLoop]⟩
  | cons c rest ih =>
    intro i stage k buf
    cases hrem : b.remaining_empty i with
    | true =>
      left
      exact ⟨0, by simp [fmtSinkLoop, fmtLoop, hrem]⟩
    | false =>
      cases stage with
      | Ongoing =>
        have hbeq : (Stage.Ongoing == Stage.StartLine) = false := by decide
        by_cases hlim : b.reached_limit i (rustIsWhitespace c) = true
        · left
          exact ⟨0, by simp [fmtSinkLoop, fmtLoop, hrem, hbeq, hlim, lineMarker]⟩
        · by_cases hf0 : failAt = some k
          · right
            refine ⟨k, i, [], c :: (fmtLoop b rest (i + 1) (stepStage Stage.Ongoing c)).1,
              hf0, ?_, ?_⟩
            · simp [fmtSinkLoop, hrem, hbeq, wr_eq, hf0, hlim]
            · simp [fmtLoop, hrem, hlim, lineMarker, hbeq]
          · rcases ih (i + 1) (stepStage Stage.Ongoing c) (k + 1) (buf ++ [c]) with
              ⟨m, hm⟩ | ⟨n, j, pre, suffix, hfa, hm, hps⟩
            · left
              refine ⟨m + 1, ?_⟩
              simp only [fmtSinkLoop, fmtLoop, hrem, hbeq, wr_eq, hf0, hlim, lineMarker]
              simp [hrem, hlim, hf0, hm]
              omega
            · right
              refine ⟨n, j, c :: pre, suffix, hfa, ?_, ?_⟩
              · simp only [fmtSinkLoop, hrem, hbeq, wr_eq, hf0, hlim]
                simp [hrem, hlim, hf0, hm, List.append_assoc]
              · simp [fmtLoop, hrem, hlim, lineMarker, hbeq, ← hps]
      | StartLine =>
        have hbeq2 : (Stage.StartLine == Stage.StartLine) = true := by decide
        by_cases hlim : b.reached_limit i (rustIsWhitespace c) = true
        · by_cases hf0 : failAt = some k
          · right
            exact ⟨k, i, [], BLOCKQUOTE_LINE, hf0,
              by simp [fmtSinkLoop, hrem, hbeq2, wr_eq, hf0, hlim],
              by simp [fmtLoop, hrem, hlim, lineMarker, hbeq2]⟩
          · left
            exact ⟨1, by simp [fmtSinkLoop, fmtLoop, hrem, hbeq2, wr_eq, hf0, hlim, lineMarker]⟩
        · by_cases hf0 : failAt = some k
          · right
            exact ⟨k, i, [],
              BLOCKQUOTE_LINE ++ c :: (fmtLoop b rest (i + 1) (stepStage Stage.StartLine c)).1,
              hf0, by simp [fmtSinkLoop, hrem, hbeq2, wr_eq, hf0],
              by simp [fmtLoop, hrem, hlim, lineMarker, hbeq2]⟩
          · by_cases hf1 : failAt = some (k + 1)
            · right
              refine ⟨k + 1, i, BLOCKQUOTE_LINE,
                c :: (fmtLoop b rest (i + 1) (stepStage Stage.StartLine c)).1, hf1, ?_, ?_⟩
              · simp [fmtSinkLoop, hrem, hbeq2, wr_eq, hf0, hf1, hlim]
              · simp [fmtLoop, hrem, hlim, lineMarker, hbeq2]
            · rcases ih (i + 1) (stepStage Stage.StartLine c) (k + 1 + 1)
                ((buf ++ BLOCKQUOTE_LINE) ++ [c]) with
                ⟨m, hm⟩ | ⟨n, j, pre, suffix, hfa, hm, hps⟩
              · left
                refine ⟨m + 2, ?_⟩
                simp only [List.append_assoc] at hm
                simp only [fmtSinkLoop, fmtLoop, hrem, hbeq2, wr_eq, hf0, hf1, hlim, lineMarker]
                simp [hrem, hlim, hf0, hf1, hm]
                omega
              · right
                refine ⟨n, j, BLOCKQUOTE_LINE ++ c :: pre, suffix, hfa, ?_, ?_⟩
                · simp only [List.append_assoc] at hm
                  simp only [fmtSinkLoop, hrem, hbeq2, wr_eq, hf0, hf1, hlim]
                  simp [hrem, hlim, hf0, hf1, hm, List.append_assoc]
                · simp [fmtLoop, hrem, hlim, lineMarker, hbeq2, ← hps]

/-- Display::fmt against the sink: either the render succeeds with the
buffer holding exactly the pure render output, or the sink failed at
write number n, the flag is false, exactly n writes landed and the
buffer holds a prefix of the pure render output. -/
theorem fmtSink_cases (b : Blockquote) (failAt : Option Nat) :
    (∃ w, fmtSink b failAt = (true, w, render b))
    ∨ (∃ n tail pre, failAt = some n ∧ fmtSink b failAt = (false, n, pre) ∧
        pre ++ tail = render b) := by
  by_cases hemp : b.is_empty = true
  · left
    exact ⟨0, by simp [fmtSink, hemp, render]⟩
  · rcases fmtSinkLoop_spec b failAt b.text 0 Stage.StartLine 0 [] with
      ⟨m, hm⟩ | ⟨n, j, pre, suf, hfa, hm, hps⟩
    · simp only [List.nil_append, Nat.zero_add] at hm
      by_cases hell : (b.with_ellipsis &&
          !b.remaining_empty (fmtLoop b b.text 0 Stage.StartLine).2) = true
      · by_cases hfm : failAt = some m
        · right
          refine ⟨m, [ELLIPSIS], (fmtLoop b b.text 0 Stage.StartLine).1, hfm, ?_, ?_⟩
          · subst hfm
            simp [fmtSink, hemp, hm, wr_eq, hell]
          · simp [render, hemp, hell]
        · left
          refine ⟨m + 1, ?_⟩
          simp [fmtSink, hemp, hm, wr_eq, hfm, hell, render]
      · left
        refine ⟨m, ?_⟩
        simp [fmtSink, hemp, hm, hell, render]
    · simp only [List.nil_append] at hm
      right
      by_cases hell : (b.with_ellipsis &&
          !b.remaining_empty (fmtLoop b b.text 0 Stage.StartLine).2) = true
      · refine ⟨n, suf ++ [ELLIPSIS], pre, hfa, ?_, ?_⟩
        · simp [fmtSink, hemp, hm]
        · simp [render, hemp, hell, ← hps]
      · refine ⟨n, suf, pre, hfa, ?_, ?_⟩
        · simp [fmtSink, hemp, hm]
        · simp [render, hemp, hell, ← hps]

/-- Claim C9: the renderer does no local recovery on sink failure: when the
sink never fails, render succeeds and the buffer is the full output; when
render reports success the buffer is the full output; whatever was written
stays a prefix of the full output, never rolled back; and on failure the
render aborted exactly at the failing write: precisely the writes before
it landed. -/
theorem sink_failure_semantics (b : Blockquote) (failAt : Option Nat) :
    ((fmtSink b none).1 = true ∧ (fmtSink b none).2.2 = render b) ∧
    ((fmtSink b failAt).1 = true → (fmtSink b failAt).2.2 = render b) ∧
    (∃ tail, (fmtSink b failAt).2.2 ++ tail = render b) ∧
    (∀ n, failAt = some n → (fmtSink b failAt).1 = false →
      (fmtSink b failAt).2.1 = n) := by
  refine ⟨?_, ?_, ?_, ?_⟩
  · rcases fmtSink_cases b none with ⟨w, h⟩ | ⟨n, tail, pre, hfa, h, hp⟩
    · rw [h]
      exact ⟨rfl, rfl⟩
    · exact absurd hfa (by simp)
  · intro ht
    rcases fmtSink_cases b failAt with ⟨w, h⟩ | ⟨n, tail, pre, hfa, h, hp⟩
    · rw [h]
    · rw [h] at ht
      simp at ht
  · rcases fmtSink_cases b failAt with ⟨w, h⟩ | ⟨n, tail, pre, hfa, h, hp⟩
    · exact ⟨[], by rw [h]; simp⟩
    · exact ⟨tail, by rw [h]; exact hp⟩
  · intro n' hn' hfalse
    rcases fmtSink_cases b failAt with ⟨w, h⟩ | ⟨n, tail, pre, hfa, h, hp⟩
    · rw [h] at hfalse
      simp at hfalse
    · rw [h]
      rw [hn'] at hfa
      injection hfa with hnn
      exact hnn.symm

/-- Witness for claim C9: a sink failing at the third write aborts a render
with exactly two writes landed. -/
theorem sink_failure_semantics_witness :
    (fmtSink (soft_limit (Blockquote.new ['a', 'b']) 1) (some 2)).1 = false ∧
    (fmtSink (soft_limit (Blockquote.new ['a', 'b']) 1) (some 2)).2.1 = 2 :=
  ⟨by decide,
    (sink_failure_semantics (soft_limit (Blockquote.new ['a', 'b']) 1)
      (some 2)).2.2.2 2 rfl (by decide)⟩
